import Mathlib

/-!
Verification development for the git-rv command line tool.

The Python source (utils.py, export.py, sync.py, submit.py) is shallowly
embedded below.  Pure record manipulation is translated to Lean functions;
the state machines are translated to one Lean function per handler method,
composed in the order the integer-state dispatch of the source produces
(the transition graph is acyclic and strictly increasing, so the handlers
can call each other directly).  External collaborators (the git binary,
the Rietveld HTTP service, the upload.py uploader, the interactive prompt)
are represented by oracle records carrying the values those collaborators
would return; exceptions become `Except` results.
-/

namespace GitRv

deriving instance DecidableEq for Except

/-- Whitespace characters recognized by the Python str.strip family. -/
def pyIsSpace (c : Char) : Bool :=
  c = ' ' || c = '\t' || c = '\n' || c = '\r' || c = '\x0b' || c = '\x0c'

/-- Python str.lstrip with no argument: drop leading whitespace. -/
def pyLstrip (s : String) : String := ⟨s.data.dropWhile pyIsSpace⟩

/-- Python str.strip with no argument: drop whitespace on both ends. -/
def pyStrip (s : String) : String :=
  ⟨((s.data.dropWhile pyIsSpace).reverse.dropWhile pyIsSpace).reverse⟩

/-- Decimal digit test used by the model of the Python int builtin. -/
def allDigits (l : List Char) : Bool := !l.isEmpty && l.all Char.isDigit

/-- Model of the Python int builtin applied to an already stripped string:
an optional sign followed by at least one decimal digit parses; anything
else raises ValueError, modelled as `none`. -/
def pyParseInt (s : String) : Option Int :=
  match s.data with
  | '-' :: rest => if allDigits rest then some (-(Nat.ofDigits 10 (rest.map (fun c => c.toNat - '0'.toNat)).reverse : Nat)) else none
  | '+' :: rest => if allDigits rest then some (Nat.ofDigits 10 (rest.map (fun c => c.toNat - '0'.toNat)).reverse : Int) else none
  | l => if allDigits l then some (Nat.ofDigits 10 (l.map (fun c => c.toNat - '0'.toNat)).reverse : Int) else none

/-- Python list subscript semantics: non-negative indexes from the front,
negative indexes from the back, out of range raises IndexError (`none`). -/
def pyIndex {α : Type} (l : List α) (i : Int) : Option α :=
  if 0 ≤ i then l.get? i.toNat
  else if -(l.length : Int) ≤ i then l.get? ((l.length : Int) + i).toNat
  else none

/-- Character-level test that one string begins with another. -/
def strStartsWith (s pre : String) : Bool := List.isPrefixOf pre.data s.data

/-- Character-level test that one string ends with another. -/
def strEndsWith (s suf : String) : Bool :=
  List.isPrefixOf suf.data.reverse s.data.reverse

/-- Character-level drop of the first n characters. -/
def strDrop (s : String) (n : Nat) : String := ⟨s.data.drop n⟩

/-- Character-level drop of the last n characters. -/
def strDropRight (s : String) (n : Nat) : String :=
  ⟨s.data.take (s.data.length - n)⟩

/-- Split a character list on a separator character, as the Python
str.split with a one-character separator does. -/
def splitOnChar (ch : Char) : List Char → List (List Char)
  | [] => [[]]
  | x :: rest =>
    match splitOnChar ch rest with
    | [] => [[]]
    | hd :: tl => if x = ch then [] :: hd :: tl else (x :: hd) :: tl

/-- Lowercase hexadecimal digit, as in the COMMIT_HASH_REGEX character class. -/
def isHexChar (c : Char) : Bool := c.isDigit || ('a' ≤ c && c ≤ 'f')

/-- Embedding of COMMIT_HASH_REGEX = ^[0-9a-f]{40}$ used by _check_hash. -/
def isCommitHash (s : String) : Bool := s.length = 40 && s.data.all isHexChar

/-- Association list lookup (first match wins); models keyed stores. -/
def alistLookup {β : Type} (l : List (String × β)) (k : String) : Option β :=
  match l with
  | [] => none
  | (k2, v) :: rest => if k2 = k then some v else alistLookup rest k

/-- Association list overwrite: remove any old binding, add the new one. -/
def alistInsert {β : Type} (l : List (String × β)) (k : String) (v : β) :
    List (String × β) :=
  (k, v) :: l.filter (fun p => p.1 ≠ k)

/-- Association list erase: remove every binding for the key. -/
def alistErase {β : Type} (l : List (String × β)) (k : String) :
    List (String × β) :=
  l.filter (fun p => p.1 ≠ k)

/-- Structured stand-in for the payloads of GitRvException and the Python
exceptions the source can raise. -/
inductive GitRvErr where
  | cantChange (attr : String)
  | badHash (value : String)
  | noCommit (base : String)
  | subjectTooLong (subject : String)
  | mismatchedSubject (message subject : String)
  | noChoices (msg : String)
  | invalidChoice (choice : String)
  | badUri (project : String)
  | attributeError
  | valueError
  | keyError
deriving DecidableEq, Repr

/-- Embedding of _string_type_cast: a string value passes unchanged. -/
def _string_type_cast (v : String) : Except GitRvErr String := .ok v

/-- Embedding of _int_type_cast: an integer value passes unchanged. -/
def _int_type_cast (v : Int) : Except GitRvErr Int := .ok v

/-- Embedding of _hash_type_cast: the value must be 40 lowercase hex chars. -/
def _hash_type_cast (v : String) : Except GitRvErr String :=
  if isCommitHash v then .ok v else .error (.badHash v)

/-- Embedding of the setter produced by simple_update_property: cast the
value, then set it if the attribute is unset or may change, raise if a
different value is already set, and silently keep an equal value. -/
def update_property {α : Type} [DecidableEq α] (attr_name : String)
    (can_change : Bool) (type_cast_method : α → Except GitRvErr α)
    (current : Option α) (value : α) : Except GitRvErr (Option α) := do
  let v ← type_cast_method value
  match current with
  | none => pure (some v)
  | some c =>
    if can_change then pure (some v)
    else if c ≠ v then throw (.cantChange attr_name)
    else pure (some c)

/-- Remote Linkage: the RemoteInfo container of utils.py, with its
_properties in declaration order last_synced, commit_hash, remote,
branch, url. -/
structure RemoteInfo where
  last_synced : Option String := none
  commit_hash : Option String := none
  remote : Option String := none
  branch : Option String := none
  url : Option String := none
deriving DecidableEq, Repr

/-- Property setter for RemoteInfo.last_synced (can_change, hash cast). -/
def RemoteInfo.setLastSynced (r : RemoteInfo) (v : String) :
    Except GitRvErr RemoteInfo :=
  (update_property "_last_synced" true _hash_type_cast r.last_synced v).map
    (fun o => { r with last_synced := o })

/-- Property setter for RemoteInfo.commit_hash (write-once, hash cast). -/
def RemoteInfo.setCommitHash (r : RemoteInfo) (v : String) :
    Except GitRvErr RemoteInfo :=
  (update_property "_commit_hash" false _hash_type_cast r.commit_hash v).map
    (fun o => { r with commit_hash := o })

/-- Property setter for RemoteInfo.remote (write-once, string cast). -/
def RemoteInfo.setRemote (r : RemoteInfo) (v : String) :
    Except GitRvErr RemoteInfo :=
  (update_property "_remote" false _string_type_cast r.remote v).map
    (fun o => { r with remote := o })

/-- Property setter for RemoteInfo.branch (write-once, string cast). -/
def RemoteInfo.setBranch (r : RemoteInfo) (v : String) :
    Except GitRvErr RemoteInfo :=
  (update_property "_branch" false _string_type_cast r.branch v).map
    (fun o => { r with branch := o })

/-- Property setter for RemoteInfo.url (write-once, string cast). -/
def RemoteInfo.setUrl (r : RemoteInfo) (v : String) :
    Except GitRvErr RemoteInfo :=
  (update_property "_url" false _string_type_cast r.url v).map
    (fun o => { r with url := o })

/-- Embedding of _UpdateInfoBase.update for RemoteInfo: walk _properties in
order and, for each value that is non-null on the other instance, assign it
through the corresponding property setter. -/
def RemoteInfo.update (self other : RemoteInfo) : Except GitRvErr RemoteInfo := do
  let s ← match other.last_synced with
    | none => pure self
    | some v => self.setLastSynced v
  let s ← match other.commit_hash with
    | none => pure s
    | some v => s.setCommitHash v
  let s ← match other.remote with
    | none => pure s
    | some v => s.setRemote v
  let s ← match other.branch with
    | none => pure s
    | some v => s.setBranch v
  match other.url with
  | none => pure s
  | some v => s.setUrl v

/-- Keep the first option when present, otherwise the second. -/
def optOr {α : Type} (o d : Option α) : Option α :=
  match o with
  | some v => some v
  | none => d

/-- The merge the spec describes for a linkage delta: every non-null field
of the delta overwrites the target, every null field is left untouched.
This is the specification-side definition that RemoteInfo.update is
compared against. -/
def RemoteInfo.overwrite_merge (self other : RemoteInfo) : RemoteInfo :=
  { last_synced := optOr other.last_synced self.last_synced
    commit_hash := optOr other.commit_hash self.commit_hash
    remote := optOr other.remote self.remote
    branch := optOr other.branch self.branch
    url := optOr other.url self.url }

/-- Review Linkage: the ReviewInfo container of utils.py, with _properties
issue, subject, description, last_commit. -/
structure ReviewInfo where
  issue : Option Int := none
  subject : Option String := none
  description : Option String := none
  last_commit : Option String := none
deriving DecidableEq, Repr

/-- Property setter for ReviewInfo.issue (write-once, int cast). -/
def ReviewInfo.setIssue (r : ReviewInfo) (v : Int) :
    Except GitRvErr ReviewInfo :=
  (update_property "_issue" false _int_type_cast r.issue v).map
    (fun o => { r with issue := o })

/-- Property setter for ReviewInfo.subject (can_change, string cast). -/
def ReviewInfo.setSubject (r : ReviewInfo) (v : String) :
    Except GitRvErr ReviewInfo :=
  (update_property "_subject" true _string_type_cast r.subject v).map
    (fun o => { r with subject := o })

/-- Property setter for ReviewInfo.description (can_change, string cast). -/
def ReviewInfo.setDescription (r : ReviewInfo) (v : String) :
    Except GitRvErr ReviewInfo :=
  (update_property "_description" true _string_type_cast r.description v).map
    (fun o => { r with description := o })

/-- Property setter for ReviewInfo.last_commit (can_change, hash cast). -/
def ReviewInfo.setLastCommit (r : ReviewInfo) (v : String) :
    Except GitRvErr ReviewInfo :=
  (update_property "_last_commit" true _hash_type_cast r.last_commit v).map
    (fun o => { r with last_commit := o })

/-- Embedding of _UpdateInfoBase.update for ReviewInfo. -/
def ReviewInfo.update (self other : ReviewInfo) : Except GitRvErr ReviewInfo := do
  let s ← match other.issue with
    | none => pure self
    | some v => self.setIssue v
  let s ← match other.subject with
    | none => pure s
    | some v => s.setSubject v
  let s ← match other.description with
    | none => pure s
    | some v => s.setDescription v
  match other.last_commit with
  | none => pure s
  | some v => s.setLastCommit v

/-- Specification-side overwrite merge for ReviewInfo. -/
def ReviewInfo.overwrite_merge (self other : ReviewInfo) : ReviewInfo :=
  { issue := optOr other.issue self.issue
    subject := optOr other.subject self.subject
    description := optOr other.description self.description
    last_commit := optOr other.last_commit self.last_commit }

/-!
Serialization layer.  _UpdateInfoBase.to_dict emits a mapping holding
exactly the non-null _properties; the constructors rebuild an object from
such a mapping by assigning each present key through its property setter.
The mappings below are typed JSON objects with one optional slot per key.
The opaque transport (json.dumps then base64.b64encode on save, and the
inverse pair on load) is a standard-library inverse pair outside the core,
so saving stores the mapping itself.
-/

/-- The dictionary RemoteInfo.to_dict produces: the non-null properties. -/
structure RemoteInfoDict where
  last_synced : Option String := none
  commit_hash : Option String := none
  remote : Option String := none
  branch : Option String := none
  url : Option String := none
deriving DecidableEq, Repr

/-- Embedding of to_dict on RemoteInfo. -/
def RemoteInfo.to_dict (r : RemoteInfo) : RemoteInfoDict :=
  { last_synced := r.last_synced, commit_hash := r.commit_hash,
    remote := r.remote, branch := r.branch, url := r.url }

/-- Embedding of the RemoteInfo constructor applied to a deserialized
mapping: every present key is assigned through its property setter on a
fresh instance (the keyword iteration order is irrelevant because the
fields are independent and initially unset). -/
def RemoteInfo.fromDict (d : RemoteInfoDict) : Except GitRvErr RemoteInfo := do
  let r : RemoteInfo := {}
  let r ← match d.last_synced with
    | none => pure r
    | some v => r.setLastSynced v
  let r ← match d.commit_hash with
    | none => pure r
    | some v => r.setCommitHash v
  let r ← match d.remote with
    | none => pure r
    | some v => r.setRemote v
  let r ← match d.branch with
    | none => pure r
    | some v => r.setBranch v
  match d.url with
  | none => pure r
  | some v => r.setUrl v

/-- Hash-typed fields of a RemoteInfo hold valid commit hashes.  Every
value reaches these fields through _hash_type_cast, so stored records
satisfy this invariant. -/
def RemoteInfo.wf (r : RemoteInfo) : Bool :=
  r.last_synced.all isCommitHash && r.commit_hash.all isCommitHash

/-- The dictionary ReviewInfo.to_dict produces. -/
structure ReviewInfoDict where
  issue : Option Int := none
  subject : Option String := none
  description : Option String := none
  last_commit : Option String := none
deriving DecidableEq, Repr

/-- Embedding of to_dict on ReviewInfo. -/
def ReviewInfo.to_dict (r : ReviewInfo) : ReviewInfoDict :=
  { issue := r.issue, subject := r.subject,
    description := r.description, last_commit := r.last_commit }

/-- Embedding of the ReviewInfo constructor applied to a deserialized
mapping. -/
def ReviewInfo.fromDict (d : ReviewInfoDict) : Except GitRvErr ReviewInfo := do
  let r : ReviewInfo := {}
  let r ← match d.issue with
    | none => pure r
    | some v => r.setIssue v
  let r ← match d.subject with
    | none => pure r
    | some v => r.setSubject v
  let r ← match d.description with
    | none => pure r
    | some v => r.setDescription v
  match d.last_commit with
  | none => pure r
  | some v => r.setLastCommit v

/-- Hash-typed fields of a ReviewInfo hold valid commit hashes. -/
def ReviewInfo.wf (r : ReviewInfo) : Bool :=
  r.last_commit.all isCommitHash

/-- Branch Record: the RietveldInfo aggregate of utils.py.  branch_name is
the store key (kept in the hidden _branch_name attribute, so it is never
serialized); server is a write-once property; privateFlag models the plain
attribute named private in the source (a Lean keyword); cc, reviewers,
host and sync_halted are plain attributes picked up by the generic
non-underscore loop of to_dict. -/
structure RietveldInfo where
  branch_name : String
  server : Option String := none
  privateFlag : Option Bool := none
  cc : Option (List String) := none
  reviewers : Option (List String) := none
  host : Option String := none
  sync_halted : Option Bool := none
  remote_info : Option RemoteInfo := none
  review_info : Option ReviewInfo := none
deriving DecidableEq, Repr

/-- The dictionary RietveldInfo.to_dict produces: nested linkages through
their own to_dict, the server property, and every non-null plain
attribute. -/
structure RietveldDict where
  remote_info : Option RemoteInfoDict := none
  review_info : Option ReviewInfoDict := none
  server : Option String := none
  privateFlag : Option Bool := none
  cc : Option (List String) := none
  reviewers : Option (List String) := none
  host : Option String := none
  sync_halted : Option Bool := none
deriving DecidableEq, Repr

/-- Embedding of RietveldInfo.to_dict. -/
def RietveldInfo.to_dict (r : RietveldInfo) : RietveldDict :=
  { remote_info := r.remote_info.map RemoteInfo.to_dict
    review_info := r.review_info.map ReviewInfo.to_dict
    server := r.server
    privateFlag := r.privateFlag
    cc := r.cc
    reviewers := r.reviewers
    host := r.host
    sync_halted := r.sync_halted }

/-- Embedding of the RietveldInfo constructor applied to a deserialized
mapping: the remote_info and review_info keys go through the property
setters, which on a fresh instance build the linkage from its dictionary;
server goes through its write-once setter (trivially succeeding on a fresh
instance); the remaining keys are plain attribute assignments. -/
def RietveldInfo.fromDict (branch_name : String) (d : RietveldDict) :
    Except GitRvErr RietveldInfo := do
  let rem ← match d.remote_info with
    | none => pure none
    | some rd => (RemoteInfo.fromDict rd).map some
  let rev ← match d.review_info with
    | none => pure none
    | some rd => (ReviewInfo.fromDict rd).map some
  pure { branch_name := branch_name, server := d.server,
         privateFlag := d.privateFlag, cc := d.cc, reviewers := d.reviewers,
         host := d.host, sync_halted := d.sync_halted,
         remote_info := rem, review_info := rev }

/-- Well-formedness of a Branch Record: nested hash fields are valid. -/
def RietveldInfo.wf (r : RietveldInfo) : Bool :=
  r.remote_info.all RemoteInfo.wf && r.review_info.all ReviewInfo.wf

/-- The store key RIETVELD_KEY_TEMPLATE derives from a branch name. -/
def metadata_key (branch : String) : String := "rietveld-branches." ++ branch

/-- The metadata store: the rietveld-branches section of the local git
config, one encoded record per tracked branch. -/
abbrev Store := List (String × RietveldDict)

/-- Embedding of RietveldInfo.save: serialize with to_dict and overwrite
the value stored under this record's key. -/
def RietveldInfo.saveStore (r : RietveldInfo) (st : Store) : Store :=
  alistInsert st (metadata_key r.branch_name) r.to_dict

/-- Embedding of RietveldInfo.remove: delete the key for the branch. -/
def storeRemove (st : Store) (branch : String) : Store :=
  alistErase st (metadata_key branch)

/-- Embedding of RietveldInfo.from_branch: look the branch key up in the
store; absence yields none (not an error); otherwise decode and rebuild
the record through the constructor. -/
def RietveldInfo.from_branch (branch : String) (st : Store) :
    Except GitRvErr (Option RietveldInfo) :=
  match alistLookup st (metadata_key branch) with
  | none => .ok none
  | some d => (RietveldInfo.fromDict branch d).map some

/-!
Repository Link Classifier for Google code hosting remotes.
-/

/-- Occurrence of a character sequence anywhere inside another. -/
def hasSubstring (sub : List Char) : List Char → Bool
  | [] => sub.isEmpty
  | c :: rest => List.isPrefixOf sub (c :: rest) || hasSubstring sub rest

/-- The data GoogleCodehostingRepositoryInfo.populate_from_match stores. -/
structure GoogleCodehostingInfo where
  project : String
  repository : Option String
deriving DecidableEq, Repr

/-- Number of dot characters, as project.count of a dot computes it. -/
def countDots (s : String) : Nat := s.data.count '.'

/-- Embedding of GoogleCodehostingRepositoryInfo.populate_from_match on
the project group of a successful match: one dot splits the group into
project and repository, more than one dot raises, no dot keeps the group
as the project with no repository. -/
def GoogleCodehostingRepositoryInfo.populate_from_match (project : String) :
    Except GitRvErr GoogleCodehostingInfo :=
  let dot_count := countDots project
  if dot_count = 1 then
    -- project, repository = project.split of the dot: exactly two pieces
    let parts := (splitOnChar '.' project.data).map (fun l => (⟨l⟩ : String))
    .ok { project := parts.headD "", repository := some ((parts.drop 1).headD "") }
  else if dot_count > 1 then
    .error (.badUri project)
  else
    .ok { project := project, repository := none }

/-- Deterministic embedding of GOOGLE_CODEHOSTING_REGEX: the pattern is
anchored, requires an http or https scheme and the code.google.com/p/
path, captures a project group of one or more characters none of which is
a slash or begins the text .git, then allows an optional .git and an
optional trailing slash.  (The dots of the host portion are unescaped in
the source pattern, so the pattern also accepts hosts with those dots
replaced by arbitrary characters; the embedding fixes the literal host,
a subset of what the pattern accepts.)  Returns the project group. -/
def gc_match (url : String) : Option String :=
  let rest :=
    if strStartsWith url "http://code.google.com/p/" then some (strDrop url 25)
    else if strStartsWith url "https://code.google.com/p/" then
      some (strDrop url 26)
    else none
  match rest with
  | none => none
  | some r0 =>
    let r1 := if strEndsWith r0 "/" then strDropRight r0 1 else r0
    let proj := if strEndsWith r1 ".git" then strDropRight r1 4 else r1
    if proj.length > 0 && !proj.data.contains '/'
        && !(hasSubstring ".git".data proj.data) then
      some proj
    else none

/-- Embedding of RepositoryInfo.from_remote restricted to remote URLs
handled by the Google code hosting matcher (no other registered matcher
recognizes these URLs): a match constructs the info class, whose
constructor calls populate_from_match; an exception there propagates; no
match falls through to the implicit None. -/
def RepositoryInfo.from_remote_googlecode (remote_url : String) :
    Except GitRvErr (Option GoogleCodehostingInfo) :=
  match gc_match remote_url with
  | some project =>
    (GoogleCodehostingRepositoryInfo.populate_from_match project).map some
  | none => .ok none

/-!
Commit message selection and the interactive decision point.
-/

/-- A commit as the VCS collaborator reports it: the subject line from a
log query with the subject format (checked to be a single line by
capture_command) and the full body from a log query with the full format. -/
structure CommitMsg where
  subject : String
  message : String
deriving DecidableEq, Repr

/-- Embedding of get_commit_message_parts on one commit: reject a subject
over 100 characters, reject a message that does not begin with the
subject, and otherwise return the subject with the remaining description
(everything after the subject, leading whitespace stripped).  A Python
str.split with an empty separator raises ValueError, so an empty subject
is a crash in the source; it is surfaced here as valueError. -/
def get_commit_message_parts (c : CommitMsg) : Except GitRvErr (String × String) :=
  if c.subject.length > 100 then .error (.subjectTooLong c.subject)
  else if !(strStartsWith c.message c.subject) then
    .error (.mismatchedSubject c.message c.subject)
  else if c.subject.length = 0 then .error .valueError
  else .ok (c.subject, pyLstrip (strDrop c.message c.subject.length))

/-- Result of the interactive decision point: whether the pre-prompt and
numbered options were printed, and the selected value or the error. -/
structure ChoiceOut where
  prompted : Bool
  result : Except GitRvErr String
deriving DecidableEq, Repr

/-- Embedding of user_choice_from_list: no choice raises the supplied
empty error; a single choice is returned with no prompt; otherwise the
user is prompted and the stripped input is accepted either as one of the
choice strings or as a Python list index into the choices (negative
indexes count from the end), anything else raising the invalid error. -/
def user_choice_from_list (choices : List String) (error_message_none : String)
    (userInput : String) : ChoiceOut :=
  match choices with
  | [] => { prompted := false, result := .error (.noChoices error_message_none) }
  | [c] => { prompted := false, result := .ok c }
  | _ =>
    let choice := pyStrip userInput
    if choices.contains choice then { prompted := true, result := .ok choice }
    else
      match pyParseInt choice with
      | none => { prompted := true, result := .error (.invalidChoice choice) }
      | some index =>
        match pyIndex choices index with
        | some v => { prompted := true, result := .ok v }
        | none => { prompted := true, result := .error (.invalidChoice choice) }

/-- Python dictionary assignment: replace the value of an existing key in
place, or add a new key. -/
def dictUpsert {α : Type} : List (String × α) → String → α → List (String × α)
  | [], k, v => [(k, v)]
  | (k2, v2) :: rest, k, v =>
    if k2 = k then (k, v) :: rest else (k2, v2) :: dictUpsert rest k v

/-- The loop of get_user_commit_message_parts that fills the
commit_choices dictionary: keyed by subject and description joined with
a blank line, valued by the parts pair, over the commits in order.  An
error from any commit's parts propagates. -/
def build_commit_choices_from (acc : List (String × (String × String))) :
    List CommitMsg → Except GitRvErr (List (String × (String × String)))
  | [] => pure acc
  | c :: rest => do
    let parts ← get_commit_message_parts c
    build_commit_choices_from (dictUpsert acc (parts.1 ++ "\n\n" ++ parts.2) parts) rest

/-- The commit_choices dictionary, built from an empty dictionary. -/
def build_commit_choices (commits : List CommitMsg) :
    Except GitRvErr (List (String × (String × String))) :=
  build_commit_choices_from [] commits

/-- Result of get_user_commit_message_parts: whether the decision point
was presented, and the chosen subject and description or the error. -/
structure MsgChoiceOut where
  prompted : Bool
  result : Except GitRvErr (String × String)
deriving DecidableEq, Repr

/-- Embedding of get_user_commit_message_parts: commits is the list the
VCS collaborator enumerates between the base commit and the head commit;
none raises the no-commit error, otherwise the candidate dictionary is
built and its keys go to user_choice_from_list, whose selection indexes
back into the dictionary. -/
def get_user_commit_message_parts (base_commit : String)
    (commits : List CommitMsg) (userInput : String) : MsgChoiceOut :=
  if commits.length = 0 then
    { prompted := false, result := .error (.noCommit base_commit) }
  else
    match build_commit_choices commits with
    | .error e => { prompted := false, result := .error e }
    | .ok commit_choices =>
      let out := user_choice_from_list (commit_choices.map Prod.fst)
        "This error should never occur." userInput
      match out.result with
      | .error e => { prompted := out.prompted, result := .error e }
      | .ok choice =>
        match alistLookup commit_choices choice with
        | some parts => { prompted := out.prompted, result := .ok parts }
        | none => { prompted := out.prompted, result := .error .keyError }

/-!
The SyncAction state machine of sync.py.  The integer-coded states form a
strictly increasing transition graph, so each handler is a function that
calls the handlers it advances to.  A run threads the in-memory record,
the persisted store, the trace of entered states, and the trace of
side-effecting operations; results the collaborators (git, the export
sub-machine driven through upload.py) would produce come from an oracle.
-/

/-- The named states of SyncAction. -/
inductive SyncState where
  | STARTING | CHECK_NEW | CHECK_CONTINUE | FETCH_REMOTE | MERGE_REMOTE_IN
  | ALERT_CONFLICT | EXPORT | CLEAN_UP | FINISHED
deriving DecidableEq, Repr

/-- Side-effecting operations a sync run performs, in order. -/
inductive SyncEffect where
  | fetchCmd        -- git fetch of the tracked remote
  | mergeSquashCmd  -- git merge of the fetched tip with squash
  | commitCmd       -- git commit of the squashed result
  | saveRecord      -- RietveldInfo.save to the store
  | exportRun       -- the ExportAction sub-machine driven to completion
deriving DecidableEq, Repr

/-- Values the external collaborators return during a sync run. -/
structure SyncOracle where
  clean : Bool                    -- in_clean_state
  headCommit : String             -- get_head_commit of the current branch
  headInRemoteBranch : String     -- tip of the tracked remote branch
  commitsSinceLast : List String  -- get_commits from last_commit to HEAD
  mergeOk : Bool                  -- status of the squash merge
  exportedInfo : RietveldInfo     -- record adopted from the export sub-machine
deriving Repr

/-- The threaded state of a sync run. -/
structure SyncRun where
  ri : RietveldInfo
  store : Store
  isContinue : Bool
  lastCommit : Option String := none
  syncHalted : Bool := false
  lastSynced : Option String := none
  effects : List SyncEffect := []
  states : List SyncState := []
deriving Repr

/-- Terminal state: advance on FINISHED returns. -/
def sync_finished (s : SyncRun) : SyncRun :=
  { s with states := s.states ++ [SyncState.FINISHED] }

/-- Embedding of SyncAction.clean_up: with remove_halted the SYNC_HALTED
key is removed through remove_key (which saves only when the key was
present), then the machine finishes. -/
def sync_clean_up (s : SyncRun) (remove_halted : Bool) : SyncRun :=
  let s := { s with states := s.states ++ [SyncState.CLEAN_UP] }
  let s :=
    if remove_halted then
      match s.ri.sync_halted with
      | none => s
      | some _ =>
        let ri2 := { s.ri with sync_halted := none }
        { s with
          ri := ri2
          store := ri2.saveStore s.store
          effects := s.effects ++ [SyncEffect.saveRecord] }
    else s
  sync_finished s

/-- Embedding of SyncAction.export_to_review: write the fetched tip into
the Remote Linkage (through the last_synced property setter) and save
before exporting, then drive the ExportAction sub-machine to completion
and adopt its record, then clean up removing the halted flag. -/
def sync_export_to_review (O : SyncOracle) (s : SyncRun) :
    Except GitRvErr SyncRun := do
  let s := { s with states := s.states ++ [SyncState.EXPORT] }
  let rem ← match s.ri.remote_info with
    | none => throw GitRvErr.attributeError
    | some rem => pure rem
  let ls ← match s.lastSynced with
    | none => throw GitRvErr.attributeError
    | some ls => pure ls
  let rem2 ← rem.setLastSynced ls
  let ri2 := { s.ri with remote_info := some rem2 }
  let s := { s with
    ri := ri2
    store := ri2.saveStore s.store
    effects := s.effects ++ [SyncEffect.saveRecord] }
  let s := { s with
    ri := O.exportedInfo
    effects := s.effects ++ [SyncEffect.exportRun] }
  pure (sync_clean_up s true)

/-- Embedding of SyncAction.alert: record the halted sync in the Branch
Record, persist it, then clean up in the mode that keeps the flag. -/
def sync_alert (s : SyncRun) : SyncRun :=
  let s := { s with states := s.states ++ [SyncState.ALERT_CONFLICT] }
  let ri2 := { s.ri with sync_halted := some true }
  let s := { s with
    ri := ri2
    store := ri2.saveStore s.store
    effects := s.effects ++ [SyncEffect.saveRecord] }
  sync_clean_up s false

/-- Embedding of SyncAction.merge: attempt the squash merge of the
fetched tip; success commits the squashed result and exports, conflict
alerts. -/
def sync_merge (O : SyncOracle) (s : SyncRun) : Except GitRvErr SyncRun := do
  let s := { s with
    states := s.states ++ [SyncState.MERGE_REMOTE_IN]
    effects := s.effects ++ [SyncEffect.mergeSquashCmd] }
  if O.mergeOk then
    let s := { s with effects := s.effects ++ [SyncEffect.commitCmd] }
    sync_export_to_review O s
  else
    pure (sync_alert s)

/-- Embedding of SyncAction.fetch_remote: fetch the tracked remote and
compare the new tip of the tracked remote branch with the recorded
last_synced value; equality finishes with nothing to do, otherwise the
machine merges.  Either way the new tip is kept on the action object. -/
def sync_fetch_remote (O : SyncOracle) (s : SyncRun) :
    Except GitRvErr SyncRun := do
  let s := { s with states := s.states ++ [SyncState.FETCH_REMOTE] }
  let rem ← match s.ri.remote_info with
    | none => throw GitRvErr.attributeError
    | some rem => pure rem
  let s := { s with effects := s.effects ++ [SyncEffect.fetchCmd] }
  let new_head := O.headInRemoteBranch
  if rem.last_synced = some new_head then
    pure (sync_finished { s with lastSynced := some new_head })
  else
    sync_merge O { s with lastSynced := some new_head }

/-- Embedding of SyncAction.check_continue: without a recorded halted
sync the machine finishes; otherwise the commits since the last exported
commit decide: none finishes (asking for a resolution commit), exactly
one records the current remote tip and exports, more than one finishes
(asking the user to collapse). -/
def sync_check_continue (O : SyncOracle) (s : SyncRun) :
    Except GitRvErr SyncRun := do
  let s := { s with states := s.states ++ [SyncState.CHECK_CONTINUE] }
  if !s.syncHalted then
    pure (sync_finished s)
  else
    let commits := O.commitsSinceLast
    if commits.length = 0 then
      pure (sync_finished s)
    else if commits.length = 1 then
      sync_export_to_review O { s with lastSynced := some O.headInRemoteBranch }
    else
      pure (sync_finished s)

/-- Embedding of SyncAction.check_new_sync: a previously halted sync
redirects to the continuation command; a head different from the last
exported commit blocks the sync; otherwise fetch. -/
def sync_check_new (O : SyncOracle) (s : SyncRun) : Except GitRvErr SyncRun := do
  let s := { s with states := s.states ++ [SyncState.CHECK_NEW] }
  if s.syncHalted then
    pure (sync_finished s)
  else if some O.headCommit ≠ s.lastCommit then
    pure (sync_finished s)
  else
    sync_fetch_remote O s

/-- Embedding of SyncAction.check_environment: a dirty branch finishes;
otherwise the last exported commit and the halted flag are read off the
record (review_info is assumed present, as the source TODO notes) and
the machine continues on the continuation or the new path. -/
def sync_check_environment (O : SyncOracle) (s : SyncRun) :
    Except GitRvErr SyncRun := do
  let s := { s with states := s.states ++ [SyncState.STARTING] }
  if !O.clean then
    pure (sync_finished s)
  else
    let rev ← match s.ri.review_info with
      | none => throw GitRvErr.attributeError
      | some rev => pure rev
    let s := { s with
      lastCommit := rev.last_commit
      syncHalted := s.ri.sync_halted.getD false }
    if s.isContinue then sync_check_continue O s else sync_check_new O s

/-- The arguments SyncAction.__init__ copies onto the namespace handed to
the export sub-machine. -/
structure SyncExportArgs where
  server : Option String := none
  privateFlag : Option Bool := none
deriving DecidableEq, Repr

/-- Outcome of SyncAction construction before any handler runs. -/
inductive SyncInitOutcome where
  | noReviewData                    -- the message path: print and finish
  | started (args : SyncExportArgs) -- state STARTING, handlers will run
deriving DecidableEq, Repr

/-- Embedding of the start of SyncAction.__init__, after the record is
loaded for the current branch: the constructor copies the record's server
and private values onto the export arguments (an attribute access on the
possibly absent record) and only afterwards guards on the record being
absent to print the no-review-data message. -/
def SyncAction.init (rietveld_info : Option RietveldInfo) :
    Except GitRvErr SyncInitOutcome := do
  let server ← match rietveld_info with
    | none => throw GitRvErr.attributeError
    | some ri => pure ri.server
  let privateFlag ← match rietveld_info with
    | none => throw GitRvErr.attributeError
    | some ri => pure ri.privateFlag
  match rietveld_info with
  | none => pure SyncInitOutcome.noReviewData
  | some _ =>
    pure (SyncInitOutcome.started { server := server, privateFlag := privateFlag })

/-!
The SubmitAction state machine of submit.py, over an abstract git state
holding the local branches with their tips and the checkout (attached to
a branch or detached at a commit).
-/

/-- The named states of SubmitAction. -/
inductive SubmitState where
  | CHECK_ENVIRONMENT | VERIFY_APPROVAL | UPDATE_FROM_METADATA
  | ENTER_DETACHED_STATE | SET_HISTORY_FROM_REMOTE | CREATE_BRANCH
  | COMMIT | PUSHING | NOTIFY_FAILURE | CLEAN_UP_LOCAL | CLEAN_UP_REVIEW
  | FINISHED
deriving DecidableEq, Repr

/-- The checkout: on a named branch or detached at a commit. -/
inductive GitHead where
  | attached (branch : String)
  | detached (commit : String)
deriving DecidableEq, Repr

/-- Abstract local repository state: branch tips and the checkout. -/
structure GitState where
  branches : List (String × String)
  head : GitHead
deriving DecidableEq, Repr

/-- Values the external collaborators return during a submit run. -/
structure SubmitOracle where
  clean : Bool                 -- in_clean_state
  approved : Bool              -- is_current_issue_approved
  metadataComplete : Bool      -- reviewers, cc and subject in the issue metadata
  mdReviewers : List String
  mdCc : List String
  mdSubject : String
  mdDescription : Option String
  checkoutDetachedOk : Bool    -- status of the detaching checkout
  resetSoftOk : Bool           -- status of the soft reset
  checkoutBOk : Bool           -- status of the branch-creating checkout
  commitOk : Bool              -- status of the squashed commit
  pushOk : Bool                -- status of the push
  newCommitHash : String       -- hash the squashed commit creates
  remoteRefHash : String       -- tip of the tracking ref used on success
deriving Repr

/-- The threaded state of a submit run. -/
structure SubmitCtx where
  branch : String       -- the current branch saved by the constructor
  issue : Int
  last_synced : String  -- from the record's Remote Linkage
  ri : RietveldInfo
  g : GitState
  store : Store
  review_branch : Option String := none
  states : List SubmitState := []
deriving Repr

/-- Embedding of update_rietveld_metadata_from_issue applied to a loaded
record: with no server or no Review Linkage it reports failure; with
complete issue metadata it assigns reviewers and cc (plain attributes),
subject and description (mutable properties whose string cast always
succeeds, the description emptied when it equals the subject), saves,
and reports success. -/
def update_rietveld_metadata_from_issue (O : SubmitOracle) (ri : RietveldInfo)
    (st : Store) : Bool × RietveldInfo × Store :=
  match ri.server, ri.review_info with
  | some _, some rev =>
    if O.metadataComplete then
      let rev2 := { rev with subject := some O.mdSubject }
      let rev3 :=
        match O.mdDescription with
        | none => rev2
        | some d =>
          if d ≠ O.mdSubject then { rev2 with description := some d }
          else { rev2 with description := some "" }
      let ri2 := { ri with
        reviewers := some O.mdReviewers
        cc := some O.mdCc
        review_info := some rev3 }
      (true, ri2, ri2.saveStore st)
    else (false, ri, st)
  | _, _ => (false, ri, st)

/-- Effect of a committing command on the abstract git state: an attached
head advances its branch, a detached head moves. -/
def git_commit_effect (g : GitState) (newHash : String) : GitState :=
  match g.head with
  | .attached b => { g with branches := alistInsert g.branches b newHash }
  | .detached _ => { g with head := .detached newHash }

/-- Effect of a branch-creating checkout: the new branch is created at
the current commit and checked out. -/
def git_checkout_new_branch (g : GitState) (name : String) : Option GitState :=
  match g.head with
  | .detached cur =>
    some { branches := alistInsert g.branches name cur, head := .attached name }
  | .attached b =>
    (alistLookup g.branches b).map
      (fun cur => { branches := alistInsert g.branches name cur,
                    head := GitHead.attached name })

/-- Effect of a soft reset to a target commit: a detached head moves, an
attached head moves its branch (the content of the tree is untouched). -/
def git_reset_soft (g : GitState) (target : String) : GitState :=
  match g.head with
  | .detached _ => { g with head := .detached target }
  | .attached b => { g with branches := alistInsert g.branches b target }

/-- The dummy-branch search of SubmitAction.create_branch: append the
disambiguating suffix while the candidate collides, with enough fuel for
the loop of the source, which always terminates because each step grows
the candidate. -/
def find_free_branch (branches : List String) : String → Nat → String
  | cand, 0 => cand
  | cand, fuel + 1 =>
    if branches.contains cand then find_free_branch branches (cand ++ "_0") fuel
    else cand

/-- Longest branch name length, used to give the search enough fuel. -/
def maxNameLength (branches : List String) : Nat :=
  (branches.map String.length).foldr max 0

/-- The review branch name create_branch settles on: the issue-derived
template, disambiguated until no branch with that name exists. -/
def choose_review_branch (branches : List String) (issue : Int) : String :=
  find_free_branch branches ("review-" ++ toString issue) (maxNameLength branches + 1)

/-- Terminal state of SubmitAction. -/
def submit_finished (c : SubmitCtx) : SubmitCtx :=
  { c with states := c.states ++ [SubmitState.FINISHED] }

/-- Embedding of SubmitAction.clean_up_review: network side effects only
(posting the commit link, optionally closing the issue), then finish. -/
def submit_clean_up_review (c : SubmitCtx) : SubmitCtx :=
  submit_finished { c with states := c.states ++ [SubmitState.CLEAN_UP_REVIEW] }

/-- Embedding of SubmitAction.clean_up_local: on success first delete the
review branch name, re-create it tracking the remote branch, and discard
the Branch Record; in every case force the checkout back to the original
branch, hard-reset any leftover changes, and delete the dummy branch when
one was created; success continues to the review clean-up, failure
finishes. -/
def submit_clean_up_local (O : SubmitOracle) (success : Bool) (c : SubmitCtx) :
    SubmitCtx :=
  let c := { c with states := c.states ++ [SubmitState.CLEAN_UP_LOCAL] }
  let c :=
    if success then
      let bs := alistInsert (alistErase c.g.branches c.branch) c.branch
        O.remoteRefHash
      { c with
        g := { c.g with branches := bs }
        store := storeRemove c.store c.branch }
    else c
  let c := { c with g := { c.g with head := GitHead.attached c.branch } }
  let c :=
    match c.review_branch with
    | none => c
    | some rb => { c with g := { c.g with branches := alistErase c.g.branches rb } }
  if success then submit_clean_up_review c else submit_finished c

/-- Embedding of SubmitAction.notify_failure: report the push or command
error (with the sync suggestion when the tip is behind), then clean up
locally without the success steps. -/
def submit_notify_failure (O : SubmitOracle) (c : SubmitCtx) : SubmitCtx :=
  submit_clean_up_local O false
    { c with states := c.states ++ [SubmitState.NOTIFY_FAILURE] }

/-- Embedding of SubmitAction.push_commit: push the review branch onto
the tracked remote branch; success cleans up with the success flag,
failure notifies. -/
def submit_push_commit (O : SubmitOracle) (c : SubmitCtx) : SubmitCtx :=
  let c := { c with states := c.states ++ [SubmitState.PUSHING] }
  if O.pushOk then submit_clean_up_local O true c
  else submit_notify_failure O c

/-- Embedding of SubmitAction.commit: commit the squashed content on the
review branch; failure notifies. -/
def submit_commit (O : SubmitOracle) (c : SubmitCtx) : SubmitCtx :=
  let c := { c with states := c.states ++ [SubmitState.COMMIT] }
  if O.commitOk then
    submit_push_commit O { c with g := git_commit_effect c.g O.newCommitHash }
  else submit_notify_failure O c

/-- Embedding of SubmitAction.create_branch: settle on the non-colliding
dummy name, create and check it out; only a successful creation records
the review branch on the action; failure notifies. -/
def submit_create_branch (O : SubmitOracle) (c : SubmitCtx) : SubmitCtx :=
  let review_branch := choose_review_branch (c.g.branches.map Prod.fst) c.issue
  let c := { c with states := c.states ++ [SubmitState.CREATE_BRANCH] }
  match (if O.checkoutBOk then git_checkout_new_branch c.g review_branch else none) with
  | some g2 => submit_commit O { c with g := g2, review_branch := some review_branch }
  | none => submit_notify_failure O c

/-- Embedding of SubmitAction.set_history_from_remote: soft reset to the
last synced commit, giving the detached tree the remote's history;
failure notifies. -/
def submit_set_history (O : SubmitOracle) (c : SubmitCtx) : SubmitCtx :=
  let c := { c with states := c.states ++ [SubmitState.SET_HISTORY_FROM_REMOTE] }
  if O.resetSoftOk then
    submit_create_branch O { c with g := git_reset_soft c.g c.last_synced }
  else submit_notify_failure O c

/-- Embedding of SubmitAction.enter_detached_state: check out the current
branch's latest position detached; failure notifies. -/
def submit_enter_detached (O : SubmitOracle) (c : SubmitCtx) : SubmitCtx :=
  let c := { c with states := c.states ++ [SubmitState.ENTER_DETACHED_STATE] }
  match (if O.checkoutDetachedOk then alistLookup c.g.branches c.branch else none) with
  | some h =>
    submit_set_history O { c with g := { c.g with head := GitHead.detached h } }
  | none => submit_notify_failure O c

/-- Embedding of SubmitAction.update_from_metadata: refresh the record
from the review service; success carries the refreshed subject and
description forward into the detached phase, failure finishes. -/
def submit_update_from_metadata (O : SubmitOracle) (c : SubmitCtx) : SubmitCtx :=
  let c := { c with states := c.states ++ [SubmitState.UPDATE_FROM_METADATA] }
  match update_rietveld_metadata_from_issue O c.ri c.store with
  | (true, ri2, st2) => submit_enter_detached O { c with ri := ri2, store := st2 }
  | (false, _, _) => submit_finished c

/-- Embedding of SubmitAction.verify_approval: an unapproved issue
finishes the machine without mutating anything. -/
def submit_verify_approval (O : SubmitOracle) (c : SubmitCtx) : SubmitCtx :=
  let c := { c with states := c.states ++ [SubmitState.VERIFY_APPROVAL] }
  if O.approved then submit_update_from_metadata O c else submit_finished c

/-- Embedding of SubmitAction.check_environment: a dirty tree finishes
the machine after showing the diff. -/
def submit_check_environment (O : SubmitOracle) (c : SubmitCtx) : SubmitCtx :=
  let c := { c with states := c.states ++ [SubmitState.CHECK_ENVIRONMENT] }
  if O.clean then submit_verify_approval O c else submit_finished c

/-- A full submit run from construction: the machine starts in
CHECK_ENVIRONMENT and runs to completion. -/
def SubmitAction.run (O : SubmitOracle) (c : SubmitCtx) : SubmitCtx :=
  submit_check_environment O c

/-- Compatibility of a delta value with a write-once field: the delta may
be silent, fill an unset field, or repeat the stored value. -/
def writeOnceCompat {α : Type} [DecidableEq α] (cur other : Option α) : Bool :=
  match other with
  | none => true
  | some v =>
    match cur with
    | none => true
    | some c => c = v

/-- A fixed valid commit hash used by concrete instances. -/
def hashA : String := "aaaaaaaaaaaaaaaaaaaaaaaaaaaaaaaaaaaaaaaa"

/-- A second valid commit hash, distinct from the first. -/
def hashB : String := "bbbbbbbbbbbbbbbbbbbbbbbbbbbbbbbbbbbbbbbb"

/-- A third valid commit hash. -/
def hashC : String := "cccccccccccccccccccccccccccccccccccccccc"

/-- A concrete Remote Linkage used by concrete instances. -/
def remW : RemoteInfo :=
  { last_synced := some hashA, commit_hash := some hashB,
    remote := some "origin", branch := some "master",
    url := some "http://code.google.com/p/x" }

/-- A concrete Review Linkage used by concrete instances. -/
def revW : ReviewInfo :=
  { issue := some 42, subject := some "s", description := some "d",
    last_commit := some hashC }

/-- A concrete Branch Record used by concrete instances. -/
def riW : RietveldInfo :=
  { branch_name := "feature", server := some "codereview.appspot.com",
    privateFlag := some false, cc := some ["ccuser"],
    reviewers := some ["reviewer"], host := none, sync_halted := none,
    remote_info := some remW, review_info := some revW }

/-- A concrete sync oracle whose fetched remote tip equals the recorded
last_synced hash. -/
def syncOracleW : SyncOracle :=
  { clean := true, headCommit := hashC, headInRemoteBranch := hashA,
    commitsSinceLast := [], mergeOk := true, exportedInfo := riW }

/-- A concrete new-sync run state. -/
def syncRunW : SyncRun := { ri := riW, store := [], isContinue := false }

/-- A concrete sync oracle for a continuation with one commit made. -/
def syncOracleW7 : SyncOracle :=
  { clean := true, headCommit := hashC, headInRemoteBranch := hashA,
    commitsSinceLast := [hashB], mergeOk := true, exportedInfo := riW }

/-- A concrete continuation run state with a recorded halted sync. -/
def syncRunW7 : SyncRun :=
  { ri := riW, store := [], isContinue := true, syncHalted := true }

/-- A concrete submit oracle whose push step fails. -/
def submitOracleW : SubmitOracle :=
  { clean := true, approved := true, metadataComplete := true,
    mdReviewers := ["reviewer"], mdCc := ["ccuser"], mdSubject := "s2",
    mdDescription := some "d2", checkoutDetachedOk := true,
    resetSoftOk := true, checkoutBOk := true, commitOk := true,
    pushOk := false, newCommitHash := hashC, remoteRefHash := hashB }

/-- A concrete submit starting context. -/
def submitCtxW : SubmitCtx :=
  { branch := "feature", issue := 42, last_synced := hashA, ri := riW,
    g := { branches := [("feature", hashC), ("master", hashB)],
           head := GitHead.attached "feature" },
    store := [] }

/-!
Theorems.
-/

theorem alistLookup_insert_self {β : Type} (l : List (String × β)) (k : String)
    (v : β) : alistLookup (alistInsert l k v) k = some v := by
  simp [alistInsert, alistLookup]

theorem alistLookup_filter_ne {β : Type} (l : List (String × β)) (k k2 : String)
    (hne : k2 ≠ k) :
    alistLookup (l.filter (fun p => p.1 ≠ k2)) k = alistLookup l k := by
  induction l with
  | nil => rfl
  | cons p rest ih =>
    simp only [decide_not] at ih
    by_cases hp : p.1 = k2
    · have hpk : p.1 ≠ k := by rw [hp]; exact hne
      simp [List.filter_cons, hp, alistLookup, hpk, hne, decide_not, ih]
    · by_cases hk : p.1 = k
      · simp [List.filter_cons, hp, alistLookup, hk, Ne.symm hne, decide_not]
      · simp [List.filter_cons, hp, alistLookup, hk, decide_not, ih]

theorem alistLookup_insert_ne {β : Type} (l : List (String × β)) (k k2 : String)
    (v : β) (hne : k2 ≠ k) :
    alistLookup (alistInsert l k2 v) k = alistLookup l k := by
  simp only [alistInsert, alistLookup, if_neg hne]
  exact alistLookup_filter_ne l k k2 hne

theorem alistLookup_erase_ne {β : Type} (l : List (String × β)) (k k2 : String)
    (hne : k2 ≠ k) : alistLookup (alistErase l k2) k = alistLookup l k :=
  alistLookup_filter_ne l k k2 hne

theorem alistLookup_erase_self {β : Type} (l : List (String × β)) (k : String) :
    alistLookup (alistErase l k) k = none := by
  induction l with
  | nil => rfl
  | cons p rest ih =>
    by_cases hp : p.1 = k
    · simpa [alistErase, List.filter_cons, hp] using ih
    · simpa [alistErase, List.filter_cons, hp, alistLookup] using ih

theorem mem_keys_of_alistLookup {β : Type} (l : List (String × β)) (k : String)
    (v : β) (h : alistLookup l k = some v) : k ∈ l.map Prod.fst := by
  induction l with
  | nil => simp [alistLookup] at h
  | cons p rest ih =>
    by_cases hp : p.1 = k
    · simp [hp]
    · simp only [alistLookup, if_neg hp] at h
      simp [ih h]

/-- C2: once a Review Linkage's issue identifier is set, assigning a
different value through the property setter raises the cannot-change
error (leaving the stored value untouched, since the setter produced no
updated object), while assigning the identical value again succeeds and
returns the object unchanged. -/
theorem review_issue_write_once (r : ReviewInfo) (i j : Int)
    (h : r.issue = some i) (hne : j ≠ i) :
    r.setIssue j = .error (.cantChange "_issue") ∧ r.setIssue i = .ok r := by
  obtain ⟨oi, os, od, ol⟩ := r
  simp only at h
  subst h
  refine ⟨?_, ?_⟩
  · simp [ReviewInfo.setIssue, update_property, _int_type_cast, Ne.symm hne,
          Except.map, throw, throwThe, MonadExceptOf.throw, bind, Except.bind,
          pure, Except.pure]
  · simp [ReviewInfo.setIssue, update_property, _int_type_cast, Except.map,
          bind, Except.bind, pure, Except.pure]

/-- Witness for the write-once issue identifier at a concrete linkage. -/
theorem review_issue_write_once_witness :
    (ReviewInfo.mk (some 5) none none none).setIssue 7 =
        .error (.cantChange "_issue") ∧
    (ReviewInfo.mk (some 5) none none none).setIssue 5 =
        .ok (ReviewInfo.mk (some 5) none none none) :=
  review_issue_write_once (ReviewInfo.mk (some 5) none none none) 5 7 rfl
    (by decide)

theorem setLastSynced_ok (r : RemoteInfo) (v : String)
    (hv : isCommitHash v = true) :
    r.setLastSynced v = .ok { r with last_synced := some v } := by
  cases h : r.last_synced <;>
    simp [RemoteInfo.setLastSynced, update_property, _hash_type_cast, hv,
          Except.map, bind, Except.bind, pure, Except.pure, h]

theorem setCommitHash_ok (r : RemoteInfo) (v : String)
    (hv : isCommitHash v = true)
    (hc : writeOnceCompat r.commit_hash (some v) = true) :
    r.setCommitHash v = .ok { r with commit_hash := some v } := by
  cases h : r.commit_hash with
  | none =>
    simp [RemoteInfo.setCommitHash, update_property, _hash_type_cast, hv,
          Except.map, bind, Except.bind, pure, Except.pure, h]
  | some c =>
    have hcv : c = v := by simpa [writeOnceCompat, h] using hc
    subst hcv
    simp [RemoteInfo.setCommitHash, update_property, _hash_type_cast, hv,
          Except.map, bind, Except.bind, pure, Except.pure, h]

theorem setRemote_ok (r : RemoteInfo) (v : String)
    (hc : writeOnceCompat r.remote (some v) = true) :
    r.setRemote v = .ok { r with remote := some v } := by
  cases h : r.remote with
  | none =>
    simp [RemoteInfo.setRemote, update_property, _string_type_cast,
          Except.map, bind, Except.bind, pure, Except.pure, h]
  | some c =>
    have hcv : c = v := by simpa [writeOnceCompat, h] using hc
    subst hcv
    simp [RemoteInfo.setRemote, update_property, _string_type_cast,
          Except.map, bind, Except.bind, pure, Except.pure, h]

theorem setBranch_ok (r : RemoteInfo) (v : String)
    (hc : writeOnceCompat r.branch (some v) = true) :
    r.setBranch v = .ok { r with branch := some v } := by
  cases h : r.branch with
  | none =>
    simp [RemoteInfo.setBranch, update_property, _string_type_cast,
          Except.map, bind, Except.bind, pure, Except.pure, h]
  | some c =>
    have hcv : c = v := by simpa [writeOnceCompat, h] using hc
    subst hcv
    simp [RemoteInfo.setBranch, update_property, _string_type_cast,
          Except.map, bind, Except.bind, pure, Except.pure, h]

theorem setUrl_ok (r : RemoteInfo) (v : String)
    (hc : writeOnceCompat r.url (some v) = true) :
    r.setUrl v = .ok { r with url := some v } := by
  cases h : r.url with
  | none =>
    simp [RemoteInfo.setUrl, update_property, _string_type_cast,
          Except.map, bind, Except.bind, pure, Except.pure, h]
  | some c =>
    have hcv : c = v := by simpa [writeOnceCompat, h] using hc
    subst hcv
    simp [RemoteInfo.setUrl, update_property, _string_type_cast,
          Except.map, bind, Except.bind, pure, Except.pure, h]

theorem setIssue_ok (r : ReviewInfo) (v : Int)
    (hc : writeOnceCompat r.issue (some v) = true) :
    r.setIssue v = .ok { r with issue := some v } := by
  cases h : r.issue with
  | none =>
    simp [ReviewInfo.setIssue, update_property, _int_type_cast,
          Except.map, bind, Except.bind, pure, Except.pure, h]
  | some c =>
    have hcv : c = v := by simpa [writeOnceCompat, h] using hc
    subst hcv
    simp [ReviewInfo.setIssue, update_property, _int_type_cast,
          Except.map, bind, Except.bind, pure, Except.pure, h]

theorem setSubject_ok (r : ReviewInfo) (v : String) :
    r.setSubject v = .ok { r with subject := some v } := by
  cases h : r.subject <;>
    simp [ReviewInfo.setSubject, update_property, _string_type_cast,
          Except.map, bind, Except.bind, pure, Except.pure, h]

theorem setDescription_ok (r : ReviewInfo) (v : String) :
    r.setDescription v = .ok { r with description := some v } := by
  cases h : r.description <;>
    simp [ReviewInfo.setDescription, update_property, _string_type_cast,
          Except.map, bind, Except.bind, pure, Except.pure, h]

theorem setLastCommit_ok (r : ReviewInfo) (v : String)
    (hv : isCommitHash v = true) :
    r.setLastCommit v = .ok { r with last_commit := some v } := by
  cases h : r.last_commit <;>
    simp [ReviewInfo.setLastCommit, update_property, _hash_type_cast, hv,
          Except.map, bind, Except.bind, pure, Except.pure, h]

/-- C3 counterexample: a delta whose write-once commit_hash field carries
a value different from the one already stored makes update raise the
cannot-change error instead of performing the plain field-wise overwrite
the claim describes for every delta. -/
theorem remote_update_conflicting_writeonce_cex :
    RemoteInfo.update { commit_hash := some hashA } { commit_hash := some hashB } =
      .error (.cantChange "_commit_hash") ∧
    RemoteInfo.update { commit_hash := some hashA } { commit_hash := some hashB } ≠
      .ok (RemoteInfo.overwrite_merge { commit_hash := some hashA }
        { commit_hash := some hashB }) := by
  constructor
  · decide
  · decide

/-- C3 amended: updating a linkage from a partially populated delta
overwrites exactly the fields non-null in the delta and leaves the
absent fields untouched, provided every write-once field present in the
delta is either unset on the target or repeats the stored value (and
hash-typed delta fields are valid hashes, as stored values always are);
this holds for both linkage types, and in particular a Remote Linkage
delta carrying only last_synced changes exactly that field. -/
theorem linkage_update_overwrites_nonnull (rs ro : RemoteInfo)
    (vs vo : ReviewInfo)
    (h1 : ro.last_synced.all isCommitHash = true)
    (h2 : ro.commit_hash.all isCommitHash = true)
    (h3 : writeOnceCompat rs.commit_hash ro.commit_hash = true)
    (h4 : writeOnceCompat rs.remote ro.remote = true)
    (h5 : writeOnceCompat rs.branch ro.branch = true)
    (h6 : writeOnceCompat rs.url ro.url = true)
    (h7 : writeOnceCompat vs.issue vo.issue = true)
    (h8 : vo.last_commit.all isCommitHash = true) :
    rs.update ro = .ok (rs.overwrite_merge ro) ∧
    vs.update vo = .ok (vs.overwrite_merge vo) := by
  obtain ⟨als, ach, arm, abr, aurl⟩ := ro
  obtain ⟨bi, bs, bd, bl⟩ := vo
  simp only [Option.all] at h1 h2 h8
  constructor
  · cases als <;> cases ach <;> cases arm <;> cases abr <;> cases aurl <;>
      simp_all [RemoteInfo.update, RemoteInfo.overwrite_merge, optOr,
                setLastSynced_ok, setCommitHash_ok, setRemote_ok,
                setBranch_ok, setUrl_ok, bind, Except.bind, pure, Except.pure]
  · cases bi <;> cases bs <;> cases bd <;> cases bl <;>
      simp_all [ReviewInfo.update, ReviewInfo.overwrite_merge, optOr,
                setIssue_ok, setSubject_ok, setDescription_ok,
                setLastCommit_ok, bind, Except.bind, pure, Except.pure]

/-- Witness for the amended update semantics, in particular the delta
carrying only last_synced. -/
theorem linkage_update_overwrites_nonnull_witness :
    RemoteInfo.update
        { remote := some "origin", branch := some "master",
          url := some "http://code.google.com/p/x", commit_hash := some hashB,
          last_synced := some hashB }
        { last_synced := some hashA } =
      .ok (RemoteInfo.overwrite_merge
        { remote := some "origin", branch := some "master",
          url := some "http://code.google.com/p/x", commit_hash := some hashB,
          last_synced := some hashB }
        { last_synced := some hashA }) ∧
    ReviewInfo.update { subject := some "s" } { description := some "d" } =
      .ok (ReviewInfo.overwrite_merge { subject := some "s" }
        { description := some "d" }) :=
  linkage_update_overwrites_nonnull _ _ _ _ (by decide) (by decide) (by decide)
    (by decide) (by decide) (by decide) (by decide) (by decide)

/-- C5: constructing a SyncAction for a branch with no stored Branch
Record raises AttributeError at the attribute access that copies the
server onto the export arguments, before the constructor reaches its
guard, so the no-review-data message path is never taken. -/
theorem sync_init_missing_record_raises :
    SyncAction.init none = .error GitRvErr.attributeError ∧
    SyncAction.init none ≠ .ok SyncInitOutcome.noReviewData := by
  constructor
  · rfl
  · intro h
    simp [SyncAction.init, throw, throwThe, MonadExceptOf.throw, bind,
          Except.bind] at h

/-- C9: a remote URL the Google code hosting matcher recognizes whose
project group carries more than one dot makes the classifier raise the
bad-URI error while constructing the repository info object: the result
is neither the none of an unrecognized URL nor a usable commit-link
kind. -/
theorem googlecode_multidot_project_fatal (url project : String)
    (h1 : gc_match url = some project) (h2 : 1 < countDots project) :
    RepositoryInfo.from_remote_googlecode url = .error (.badUri project) := by
  simp [RepositoryInfo.from_remote_googlecode, h1,
        GoogleCodehostingRepositoryInfo.populate_from_match,
        Nat.ne_of_gt h2, h2, Except.map]

/-- Witness: a matched project with two dots is fatal. -/
theorem googlecode_multidot_project_fatal_witness :
    gc_match "http://code.google.com/p/a.b.c" = some "a.b.c" ∧
    1 < countDots "a.b.c" ∧
    RepositoryInfo.from_remote_googlecode "http://code.google.com/p/a.b.c" =
      .error (.badUri "a.b.c") :=
  ⟨by decide, by decide,
    googlecode_multidot_project_fatal "http://code.google.com/p/a.b.c" "a.b.c"
      (by decide) (by decide)⟩

/-- C10: at the interactive decision point with at least two candidates,
an input that is none of the candidate strings but parses as a negative
integer within range selects the candidate counted from the end of the
list instead of raising the invalid-choice error. -/
theorem choice_negative_index (choices : List String) (e input : String)
    (i : Int) (v : String)
    (h2 : 2 ≤ choices.length)
    (hni : choices.contains (pyStrip input) = false)
    (hp : pyParseInt (pyStrip input) = some i)
    (hneg : i < 0) (hbound : -(choices.length : Int) ≤ i)
    (hv : choices.get? ((choices.length : Int) + i).toNat = some v) :
    user_choice_from_list choices e input = ⟨true, .ok v⟩ := by
  obtain ⟨c1, c2, rest, hch⟩ : ∃ a b t, choices = a :: b :: t := by
    match choices, h2 with
    | a :: b :: t, _ => exact ⟨a, b, t, rfl⟩
  subst hch
  have hn0 : ¬ (0 ≤ i) := by omega
  simp only [user_choice_from_list, hni, Bool.false_eq_true, if_false, hp,
             pyIndex, hn0]
  simp only [List.length_cons] at hbound hv ⊢
  rw [if_pos hbound, hv]

/-- Witness: the input selecting the last candidate of two by index. -/
theorem choice_negative_index_witness :
    user_choice_from_list ["a", "b"] "none-msg" "-1" =
      ⟨true, .ok "b"⟩ :=
  choice_negative_index ["a", "b"] "none-msg" "-1" (-1) "b" (by decide)
    (by decide) (by decide) (by decide) (by decide) (by decide)

/-- C6: when the fetched tip of the tracked remote branch equals the
recorded last_synced hash, the fetch handler goes straight to the
terminal state: the only effect is the fetch itself (no merge, no
export, no save), and neither the in-memory record nor the store is
changed. -/
theorem sync_fetch_remote_no_new_changes (O : SyncOracle) (s : SyncRun)
    (rem : RemoteInfo)
    (h1 : s.ri.remote_info = some rem)
    (h2 : rem.last_synced = some O.headInRemoteBranch) :
    sync_fetch_remote O s = .ok { s with
      lastSynced := some O.headInRemoteBranch
      effects := s.effects ++ [SyncEffect.fetchCmd]
      states := s.states ++ [SyncState.FETCH_REMOTE, SyncState.FINISHED] } := by
  simp [sync_fetch_remote, h1, h2, sync_finished, bind, Except.bind, pure,
        Except.pure]

/-- Witness: the fetch handler on a record already synced to the tip. -/
theorem sync_fetch_remote_no_new_changes_witness :
    sync_fetch_remote syncOracleW syncRunW = .ok { syncRunW with
      lastSynced := some hashA
      effects := [SyncEffect.fetchCmd]
      states := [SyncState.FETCH_REMOTE, SyncState.FINISHED] } :=
  sync_fetch_remote_no_new_changes syncOracleW syncRunW remW rfl rfl

theorem remote_fromDict_to_dict (r : RemoteInfo) (h : r.wf = true) :
    RemoteInfo.fromDict r.to_dict = .ok r := by
  obtain ⟨ls, ch, rm, br, u⟩ := r
  simp only [RemoteInfo.wf, Option.all, Bool.and_eq_true] at h
  cases ls <;> cases ch <;> cases rm <;> cases br <;> cases u <;>
    simp_all [RemoteInfo.fromDict, RemoteInfo.to_dict, setLastSynced_ok,
              setCommitHash_ok, setRemote_ok, setBranch_ok, setUrl_ok,
              writeOnceCompat, bind, Except.bind, pure, Except.pure]

theorem review_fromDict_to_dict (r : ReviewInfo) (h : r.wf = true) :
    ReviewInfo.fromDict r.to_dict = .ok r := by
  obtain ⟨oi, os, od, ol⟩ := r
  simp only [ReviewInfo.wf, Option.all] at h
  cases oi <;> cases os <;> cases od <;> cases ol <;>
    simp_all [ReviewInfo.fromDict, ReviewInfo.to_dict, setIssue_ok,
              setSubject_ok, setDescription_ok, setLastCommit_ok,
              writeOnceCompat, bind, Except.bind, pure, Except.pure]

theorem rietveld_fromDict_to_dict (r : RietveldInfo) (h : r.wf = true) :
    RietveldInfo.fromDict r.branch_name r.to_dict = .ok r := by
  obtain ⟨bn, srv, priv, cc, rvw, host, halt, rem, rev⟩ := r
  simp only [RietveldInfo.wf, Option.all, Bool.and_eq_true] at h
  cases rem <;> cases rev <;>
    simp_all [RietveldInfo.fromDict, RietveldInfo.to_dict,
              remote_fromDict_to_dict, review_fromDict_to_dict,
              bind, Except.bind, pure, Except.pure, Except.map]

/-- C4: saving a well-formed Branch Record (its hash fields hold valid
hashes, as every stored record does) and loading it back through the
store yields the identical record, nested linkages included. -/
theorem rietveld_save_load_round_trip (st : Store) (r : RietveldInfo)
    (h : r.wf = true) :
    RietveldInfo.from_branch r.branch_name (r.saveStore st) = .ok (some r) := by
  simp [RietveldInfo.from_branch, RietveldInfo.saveStore,
        alistLookup_insert_self, rietveld_fromDict_to_dict r h, Except.map]

theorem user_choice_prompted (choices : List String) (e input : String)
    (h : 2 ≤ choices.length) :
    (user_choice_from_list choices e input).prompted = true := by
  obtain ⟨a, b, t, rfl⟩ : ∃ a b t, choices = a :: b :: t := by
    match choices, h with
    | a :: b :: t, _ => exact ⟨a, b, t, rfl⟩
  simp only [user_choice_from_list]
  split
  · rfl
  · split
    · rfl
    · split
      · rfl
      · rfl

theorem dictUpsert_length_le {α : Type} (d : List (String × α)) (k : String)
    (v : α) : (dictUpsert d k v).length ≤ d.length + 1 := by
  induction d with
  | nil => simp [dictUpsert]
  | cons p rest ih =>
    by_cases hp : p.1 = k
    · simp [dictUpsert, hp]
    · simp [dictUpsert, hp]
      omega

theorem build_commit_choices_from_length (commits : List CommitMsg)
    (acc d : List (String × (String × String)))
    (h : build_commit_choices_from acc commits = .ok d) :
    d.length ≤ acc.length + commits.length := by
  induction commits generalizing acc with
  | nil =>
    simp only [build_commit_choices_from, pure, Except.pure,
               Except.ok.injEq] at h
    subst h
    simp
  | cons c rest ih =>
    simp only [build_commit_choices_from, bind, Except.bind] at h
    cases hp : get_commit_message_parts c with
    | error e => rw [hp] at h; cases h
    | ok parts =>
      rw [hp] at h
      have h1 := ih (dictUpsert acc (parts.1 ++ "\n\n" ++ parts.2) parts) h
      have h2 := dictUpsert_length_le acc (parts.1 ++ "\n\n" ++ parts.2) parts
      simp only [List.length_cons]
      omega

theorem build_commit_choices_from_error_of_long_subject
    (commits : List CommitMsg) (c : CommitMsg) (hc : c ∈ commits)
    (hlen : 100 < c.subject.length)
    (acc : List (String × (String × String))) :
    ∃ e, build_commit_choices_from acc commits = .error e := by
  induction commits generalizing acc with
  | nil => cases hc
  | cons c0 rest ih =>
    rcases List.mem_cons.mp hc with h | h
    · subst h
      exact ⟨.subjectTooLong c.subject,
        by simp [build_commit_choices_from, get_commit_message_parts, hlen,
                 bind, Except.bind]⟩
    · cases hp : get_commit_message_parts c0 with
      | error e =>
        exact ⟨e, by simp [build_commit_choices_from, hp, bind, Except.bind]⟩
      | ok parts =>
        obtain ⟨e, he⟩ :=
          ih h (dictUpsert acc (parts.1 ++ "\n\n" ++ parts.2) parts)
        exact ⟨e,
          by simp [build_commit_choices_from, hp, bind, Except.bind, he]⟩

/-- Witness: the concrete record round-trips through an empty store. -/
theorem rietveld_save_load_round_trip_witness :
    RietveldInfo.from_branch riW.branch_name (riW.saveStore []) =
      .ok (some riW) :=
  rietveld_save_load_round_trip [] riW (by decide)

/-- C8 counterexample: two commits carrying the identical message are
collapsed into one candidate by the choices dictionary, so the decision
point is never presented and the single candidate is returned without
prompting, against the claim that more than one commit always reaches
the decision point. -/
theorem export_multi_commit_no_prompt_cex :
    2 ≤ ([⟨"s", "s\n\nd"⟩, ⟨"s", "s\n\nd"⟩] : List CommitMsg).length ∧
    (get_user_commit_message_parts hashA
      [⟨"s", "s\n\nd"⟩, ⟨"s", "s\n\nd"⟩] "unused").prompted = false ∧
    (get_user_commit_message_parts hashA
      [⟨"s", "s\n\nd"⟩, ⟨"s", "s\n\nd"⟩] "unused").result = .ok ("s", "d") := by
  refine ⟨by decide, by decide, by decide⟩

/-- C8 amended: with no explicit message, zero enumerated commits raise
the nothing-to-export error; exactly one commit returns its message
verbatim without prompting; at least two distinct candidate messages
always present the decision point (commits with identical messages are
collapsed into one candidate first, in which case the survivor is used
without prompting); and a commit whose subject exceeds 100 characters
makes the enumeration fail with an error before any prompt. -/
theorem export_message_selection (base : String) (commits : List CommitMsg)
    (input : String) :
    (commits = [] →
      get_user_commit_message_parts base commits input =
        ⟨false, .error (.noCommit base)⟩) ∧
    (∀ c parts, commits = [c] → get_commit_message_parts c = .ok parts →
      get_user_commit_message_parts base commits input = ⟨false, .ok parts⟩) ∧
    (∀ d, build_commit_choices commits = .ok d → 2 ≤ d.length →
      (get_user_commit_message_parts base commits input).prompted = true) ∧
    (∀ c, c ∈ commits → 100 < c.subject.length →
      (get_user_commit_message_parts base commits input).prompted = false ∧
      ∃ e, (get_user_commit_message_parts base commits input).result =
        .error e) := by
  refine ⟨?_, ?_, ?_, ?_⟩
  · rintro rfl
    simp [get_user_commit_message_parts]
  · rintro c parts rfl hp
    simp [get_user_commit_message_parts, build_commit_choices,
          build_commit_choices_from, hp, dictUpsert, user_choice_from_list,
          alistLookup, bind, Except.bind, pure, Except.pure]
  · intro d hd h2
    have hne : ¬ (commits.length = 0) := by
      intro h0
      rw [List.length_eq_zero] at h0
      subst h0
      simp only [build_commit_choices, build_commit_choices_from, pure,
                 Except.pure, Except.ok.injEq] at hd
      subst hd
      simp at h2
    have hp := user_choice_prompted (d.map Prod.fst)
      "This error should never occur." input (by simpa using h2)
    simp only [get_user_commit_message_parts, if_neg hne, hd]
    cases hres : (user_choice_from_list (d.map Prod.fst)
        "This error should never occur." input).result with
    | error e => simp [hres, hp]
    | ok choice => cases hl : alistLookup d choice <;> simp [hres, hl, hp]
  · intro c hc hlen
    obtain ⟨e, he⟩ :=
      build_commit_choices_from_error_of_long_subject commits c hc hlen []
    have hne : ¬ (commits.length = 0) := by
      intro h0
      rw [List.length_eq_zero] at h0
      subst h0
      cases hc
    refine ⟨?_, ⟨e, ?_⟩⟩
    · simp [get_user_commit_message_parts, hne, build_commit_choices, he]
    · simp [get_user_commit_message_parts, hne, build_commit_choices, he]

/-- Witness: one enumerated commit is used verbatim with no prompt. -/
theorem export_message_selection_witness :
    get_user_commit_message_parts hashA [⟨"s", "s\n\nd"⟩] "unused" =
      ⟨false, .ok ("s", "d")⟩ :=
  (export_message_selection hashA [⟨"s", "s\n\nd"⟩] "unused").2.1
    ⟨"s", "s\n\nd"⟩ ("s", "d") rfl (by decide)

/-- C7: on a continuation run with a recorded halted sync, the commit
count since the last exported commit splits the behavior: zero commits
or two or more commits finish the machine immediately with the record,
the store and the effect trace untouched (so the halted flag is not
cleared and no export happens), while exactly one commit proceeds into
the export state and runs the export sub-machine. -/
theorem sync_check_continue_branches (O : SyncOracle) (s : SyncRun)
    (rem : RemoteInfo)
    (hhalt : s.syncHalted = true)
    (hrem : s.ri.remote_info = some rem)
    (hvalid : isCommitHash O.headInRemoteBranch = true) :
    (O.commitsSinceLast.length = 0 →
      sync_check_continue O s = .ok { s with
        states := s.states ++ [SyncState.CHECK_CONTINUE, SyncState.FINISHED] }) ∧
    (O.commitsSinceLast.length = 1 →
      (sync_check_continue O s).map SyncRun.states =
        .ok (s.states ++ [SyncState.CHECK_CONTINUE, SyncState.EXPORT,
                          SyncState.CLEAN_UP, SyncState.FINISHED]) ∧
      (sync_check_continue O s).map
          (fun o => decide (SyncEffect.exportRun ∈ o.effects)) = .ok true) ∧
    (2 ≤ O.commitsSinceLast.length →
      sync_check_continue O s = .ok { s with
        states := s.states ++ [SyncState.CHECK_CONTINUE, SyncState.FINISHED] }) := by
  refine ⟨?_, ?_, ?_⟩
  · intro h0
    simp [sync_check_continue, hhalt, h0, sync_finished, pure, Except.pure]
  · intro h1
    have hne0 : ¬ (O.commitsSinceLast.length = 0) := by omega
    cases hh : O.exportedInfo.sync_halted <;>
      simp [sync_check_continue, hhalt, hne0, h1, sync_export_to_review,
            hrem, setLastSynced_ok _ _ hvalid, sync_clean_up, sync_finished,
            hh, bind, Except.bind, pure, Except.pure, Except.map,
            List.mem_append]
  · intro h2
    have hne0 : ¬ (O.commitsSinceLast.length = 0) := by omega
    have hne1 : ¬ (O.commitsSinceLast.length = 1) := by omega
    simp [sync_check_continue, hhalt, hne0, hne1, sync_finished, pure,
          Except.pure]

theorem maxNameLength_cons (b : String) (rest : List String) :
    maxNameLength (b :: rest) = max b.length (maxNameLength rest) := rfl

theorem mem_length_le_maxNameLength (branches : List String) (s : String)
    (h : s ∈ branches) : s.length ≤ maxNameLength branches := by
  induction branches with
  | nil => cases h
  | cons b rest ih =>
    rw [maxNameLength_cons]
    rcases List.mem_cons.mp h with h | h
    · subst h
      exact Nat.le_max_left _ _
    · exact le_trans (ih h) (Nat.le_max_right _ _)

theorem find_free_branch_not_mem (branches : List String) (cand : String)
    (fuel : Nat) (h : maxNameLength branches < fuel + cand.length) :
    find_free_branch branches cand fuel ∉ branches := by
  induction fuel generalizing cand with
  | zero =>
    intro hmem
    simp only [find_free_branch] at hmem
    have := mem_length_le_maxNameLength branches cand hmem
    omega
  | succ n ih =>
    by_cases hc : branches.contains cand = true
    · simp only [find_free_branch, hc, if_true]
      apply ih
      have h2 : (cand ++ "_0").length = cand.length + 2 := by
        rw [String.length_append]
        rfl
      omega
    · simp only [find_free_branch, hc, if_false]
      intro hmem
      exact hc (List.elem_iff.mpr hmem)

theorem choose_review_branch_fresh (branches : List String) (issue : Int) :
    choose_review_branch branches issue ∉ branches := by
  apply find_free_branch_not_mem
  omega

/-- Witness: a continuation with exactly one commit since the halt
enters the export state and runs the export sub-machine. -/
theorem sync_check_continue_branches_witness :
    (sync_check_continue syncOracleW7 syncRunW7).map SyncRun.states =
      .ok [SyncState.CHECK_CONTINUE, SyncState.EXPORT, SyncState.CLEAN_UP,
           SyncState.FINISHED] ∧
    (sync_check_continue syncOracleW7 syncRunW7).map
        (fun o => decide (SyncEffect.exportRun ∈ o.effects)) = .ok true :=
  (sync_check_continue_branches syncOracleW7 syncRunW7 remW rfl rfl
    (by decide)).2.1 (by decide)

/-- C1: a submit run whose push step fails (every git step before it
succeeding) rolls back: the original branch ends checked out and still
maps to its pre-submit head commit, the temporary landing branch (which
was created on this path) is deleted, the Branch Record for the original
branch is still stored, the failure was notified, and the success-only
review clean-up state is never entered. -/
theorem submit_push_failure_rollback (O : SubmitOracle) (c : SubmitCtx)
    (h : String)
    (horig : alistLookup c.g.branches c.branch = some h)
    (hbn : c.ri.branch_name = c.branch)
    (hsrv : c.ri.server.isSome = true)
    (hrev : c.ri.review_info.isSome = true)
    (hst0 : c.states = [])
    (hclean : O.clean = true) (happr : O.approved = true)
    (hmeta : O.metadataComplete = true)
    (hcd : O.checkoutDetachedOk = true) (hrs : O.resetSoftOk = true)
    (hcb : O.checkoutBOk = true) (hcm : O.commitOk = true)
    (hpush : O.pushOk = false) :
    (SubmitAction.run O c).g.head = GitHead.attached c.branch ∧
    alistLookup (SubmitAction.run O c).g.branches c.branch = some h ∧
    alistLookup (SubmitAction.run O c).store (metadata_key c.branch) ≠ none ∧
    alistLookup (SubmitAction.run O c).g.branches
      (choose_review_branch (c.g.branches.map Prod.fst) c.issue) = none ∧
    SubmitState.NOTIFY_FAILURE ∈ (SubmitAction.run O c).states ∧
    SubmitState.CLEAN_UP_REVIEW ∉ (SubmitAction.run O c).states := by
  obtain ⟨srv, hsrv⟩ := Option.isSome_iff_exists.mp hsrv
  obtain ⟨rev, hrev⟩ := Option.isSome_iff_exists.mp hrev
  have hmem : c.branch ∈ c.g.branches.map Prod.fst :=
    mem_keys_of_alistLookup _ _ _ horig
  have hrbne :
      choose_review_branch (c.g.branches.map Prod.fst) c.issue ≠ c.branch := by
    intro he
    exact choose_review_branch_fresh (c.g.branches.map Prod.fst) c.issue
      (he ▸ hmem)
  simp only [SubmitAction.run, submit_check_environment, hclean, if_true,
    submit_verify_approval, happr, submit_update_from_metadata,
    update_rietveld_metadata_from_issue, hsrv, hrev, hmeta,
    submit_enter_detached, hcd, horig, submit_set_history, hrs,
    git_reset_soft, submit_create_branch, hcb, git_checkout_new_branch,
    submit_commit, hcm, git_commit_effect, submit_push_commit, hpush,
    Bool.false_eq_true, if_false, submit_notify_failure,
    submit_clean_up_local, hst0, submit_finished, RietveldInfo.saveStore]
  refine ⟨trivial, ?_, ?_, ?_, ?_, ?_⟩
  · rw [alistLookup_erase_ne _ _ _ hrbne, alistLookup_insert_ne _ _ _ _ hrbne,
        alistLookup_insert_ne _ _ _ _ hrbne]
    exact horig
  · simp [hbn, alistLookup_insert_self]
  · exact alistLookup_erase_self _ _
  · simp
  · simp

/-- Witness: a concrete submit run with a failing push. -/
theorem submit_push_failure_rollback_witness :
    (SubmitAction.run submitOracleW submitCtxW).g.head =
      GitHead.attached submitCtxW.branch ∧
    alistLookup (SubmitAction.run submitOracleW submitCtxW).g.branches
      submitCtxW.branch = some hashC ∧
    alistLookup (SubmitAction.run submitOracleW submitCtxW).store
      (metadata_key submitCtxW.branch) ≠ none ∧
    alistLookup (SubmitAction.run submitOracleW submitCtxW).g.branches
      (choose_review_branch (submitCtxW.g.branches.map Prod.fst)
        submitCtxW.issue) = none ∧
    SubmitState.NOTIFY_FAILURE ∈ (SubmitAction.run submitOracleW submitCtxW).states ∧
    SubmitState.CLEAN_UP_REVIEW ∉ (SubmitAction.run submitOracleW submitCtxW).states :=
  submit_push_failure_rollback submitOracleW submitCtxW hashC (by decide)
    (by decide) (by decide) (by decide) rfl rfl rfl rfl rfl rfl rfl rfl rfl

end GitRv
